import Mathlib

/-!
Verification of the `create-bcr-entry.mjs` release script of kormide/bazel-lib.

The script is a sequential file-tree transformation plus one HTTPS download.
We embed its pure string operations directly (JavaScript `String.prototype.replace`
with a string pattern replaces the first occurrence; with a `/g` regex it replaces
every non-overlapping occurrence left to right), model the filesystem as a finite
map from paths to file data, and model the network and the SHA-256/base64 digest
as parameters of the workflow.  Exceptions carry the filesystem state at the time
of the throw, since writes performed before an exception persist on disk.
-/

namespace BcrEntry

/-! ## JavaScript-style string replacement, over `List Char` -/

/-- `containsSub s pat`: does `pat` occur as a contiguous substring of `s`? -/
def containsSub (s pat : List Char) : Bool :=
  match s with
  | [] => pat.isEmpty
  | _ :: cs => pat.isPrefixOf s || containsSub cs pat

/-- JS `String.prototype.replace(pat, rep)` with a string pattern: replace the
first occurrence of `pat` in `s` by `rep`; if `pat` does not occur, return `s`
unchanged.  (`$`-escape processing in the replacement is not modelled; no
replacement string used by the script is documented to contain `$`.) -/
def replaceFirst (s pat rep : List Char) : List Char :=
  match s with
  | [] => if pat.isEmpty then rep else []
  | c :: cs =>
    if pat.isPrefixOf (c :: cs) then rep ++ (c :: cs).drop pat.length
    else c :: replaceFirst cs pat rep

/-- Worker for `replaceAll`.  The counter `k` is the number of characters of an
already-matched pattern occurrence still to be consumed (emitting nothing);
at `k = 0` we scan for the next occurrence. -/
def replaceAllGo (pat rep : List Char) : List Char → Nat → List Char
  | [], _ => []
  | _ :: cs, k + 1 => replaceAllGo pat rep cs k
  | c :: cs, 0 =>
    if pat.isPrefixOf (c :: cs) && !pat.isEmpty then
      rep ++ replaceAllGo pat rep cs (pat.length - 1)
    else c :: replaceAllGo pat rep cs 0

/-- JS `String.prototype.replace(/pat/g, rep)`: replace every non-overlapping
occurrence of `pat` in `s`, scanning left to right and not rescanning the
replacement text. -/
def replaceAll (s pat rep : List Char) : List Char :=
  replaceAllGo pat rep s 0

/-- `noStartB pat a b = true`: no occurrence of `pat` in `a ++ b` starts
inside `a`.  This is the precise sense in which an occurrence of `pat`
placed right after `a` is the *first* occurrence. -/
def noStartB (pat : List Char) : List Char → List Char → Bool
  | [], _ => true
  | c :: a, b => !(pat.isPrefixOf (c :: (a ++ b))) && noStartB pat a b

/-! ## The module-name matcher

The script extracts the module name with the regular expression
`/module\(.*?name\s*=\s*"(\w+)"/s`.  Since the match must begin with the
literal `module(`, the leftmost match starts at the first occurrence of
`module(`, and the lazy `.*?` makes the captured group come from the first
position at or after it where `name\s*=\s*"(\w+)"` matches.  If no such
position exists after the first `module(` then none exists after any later
occurrence either, so the regex fails exactly when our matcher returns
`none`. -/

/-- JS regex `\s` (restricted to the ASCII whitespace the script's inputs use). -/
def isSpaceJS (c : Char) : Bool :=
  c == ' ' || c == '\t' || c == '\n' || c == '\r' || c == '\x0c' || c == '\x0b'

/-- JS regex `\w`: ASCII letters, digits and underscore. -/
def isWordChar (c : Char) : Bool :=
  c.isAlpha || c.isDigit || c == '_'

/-- Match `name\s*=\s*"(\w+)"` at the start of `s`, returning the capture. -/
def matchNameAt (s : List Char) : Option (List Char) :=
  if "name".toList.isPrefixOf s then
    match (s.drop 4).dropWhile isSpaceJS with
    | '=' :: s2 =>
      match s2.dropWhile isSpaceJS with
      | '"' :: s4 =>
        match s4.takeWhile isWordChar, (s4.dropWhile isWordChar) with
        | [], _ => none
        | w, '"' :: _ => some w
        | _, _ => none
      | _ => none
    | _ => none
  else none

/-- First position in `s` (scanning left to right) where the name pattern
matches; returns its capture. -/
def findNameCapture : List Char → Option (List Char)
  | [] => none
  | c :: cs =>
    match matchNameAt (c :: cs) with
    | some w => some w
    | none => findNameCapture cs

/-- The remainder of `s` after the first occurrence of the literal `module(`. -/
def afterFirstModuleParen : List Char → Option (List Char)
  | [] => none
  | c :: cs =>
    if "module(".toList.isPrefixOf (c :: cs) then some ((c :: cs).drop 7)
    else afterFirstModuleParen cs

/-- The capture of `/module\(.*?name\s*=\s*"(\w+)"/s` on `content`, if the
regex matches (`getModuleName`, lines 57-67 of the script, pure part). -/
def moduleNameOfContent (content : List Char) : Option (List Char) :=
  (afterFirstModuleParen content).bind findNameCapture

/-! ## Version normalization and metadata merging -/

/-- `normalizeVersion` (lines 152-156): strips a leading `v`; for a version
not starting with `v` the function falls through and returns `undefined`,
modelled as `none`. -/
def normalizeVersion (version : String) : Option String :=
  match version.data with
  | 'v' :: rest => some (String.mk rest)
  | _ => none

/-- Lexicographic comparison of character lists by code point, the order the
default `Array.prototype.sort()` comparator induces on the script's version
strings. -/
def lexLe : List Char → List Char → Bool
  | [], _ => true
  | _ :: _, [] => false
  | a :: as, b :: bs => if a < b then true else if b < a then false else lexLe as bs

/-- String comparison used by `metadata.versions.sort()`. -/
def verLe (a b : String) : Bool := lexLe a.data b.data

/-- Insert `v` into `l` before the first element not below it. -/
def insertSorted (le : String → String → Bool) (v : String) : List String → List String
  | [] => [v]
  | w :: ws => if le v w then v :: w :: ws else w :: insertSorted le v ws

/-- Insertion sort.  Since `verLe` is total and equal strings are identical,
this produces the same list as any comparison sort, in particular as the
JavaScript engine's `Array.prototype.sort()`. -/
def sortL (le : String → String → Bool) : List String → List String
  | [] => []
  | v :: vs => insertSorted le v (sortL le vs)

/-- Decidable sortedness check for a comparator. -/
def isSortedBy (le : String → String → Bool) : List String → Bool
  | [] => true
  | [_] => true
  | a :: b :: rest => le a b && isSortedBy le (b :: rest)

/-- The metadata merge performed by `writeMetadataFile` (lines 80-86):
`metadata.versions.push(version); metadata.versions.sort()`. -/
def mergeVersions (versions : List String) (version : String) : List String :=
  sortL verLe (versions ++ [version])

/-! ## Template stamping -/

def VERSION_PLACEHOLDER : List Char := "VERSION_PLACEHOLDER".toList

def REPO_PLACEHOLDER : List Char := "REPO_PLACEHOLDER".toList

def OWNER_SLASH_REPO_PLACEHOLDER : List Char := "OWNER_SLASH_REPO_PLACEHOLDER".toList

def SHA256_PLACEHOLDER : List Char := "SHA256_PLACEHOLDER".toList

/-- The substitution of `writeModuleFile` (lines 97-99):
`.replace("REPO_PLACEHOLDER", ownerSlashRepo).replace("VERSION_PLACEHOLDER", version)` —
plain string patterns, so only the first occurrence of each is replaced. -/
def stampModule (content ownerSlashRepo version : List Char) : List Char :=
  replaceFirst (replaceFirst content REPO_PLACEHOLDER ownerSlashRepo)
    VERSION_PLACEHOLDER version

/-- `ownerSlashRepo.substring(ownerSlashRepo.indexOf("/") + 1)` (line 138):
everything after the first slash, or the whole string if there is no slash
(`indexOf` returns `-1`, so `substring(0)`). -/
def afterSlash (s : List Char) : List Char :=
  if s.contains '/' then (s.dropWhile (fun c => !(c == '/'))).drop 1 else s

/-- The substitution of `writeSourceFile` (lines 134-140): a global replace of
`VERSION_PLACEHOLDER`, then first-occurrence replaces of `REPO_PLACEHOLDER`
(repository-name part), `OWNER_SLASH_REPO_PLACEHOLDER` and
`SHA256_PLACEHOLDER` (digest prefixed with `sha256-`), in that order. -/
def stampSource (content ownerSlashRepo version digest64 : List Char) : List Char :=
  replaceFirst
    (replaceFirst
      (replaceFirst (replaceAll content VERSION_PLACEHOLDER version)
        REPO_PLACEHOLDER (afterSlash ownerSlashRepo))
      OWNER_SLASH_REPO_PLACEHOLDER ownerSlashRepo)
    SHA256_PLACEHOLDER ("sha256-".toList ++ digest64)

/-- The download URL built at line 125:
`https://github.com/${ownerSlashRepo}/archive/v${version}.tar.gz`. -/
def downloadUrl (ownerSlashRepo version : String) : String :=
  "https://github.com/" ++ ownerSlashRepo ++ "/archive/v" ++ version ++ ".tar.gz"

/-! ## Filesystem, network and error model

Files are a finite map from path strings to file data.  The shared
`metadata.json` is held in parsed form (`metaJson versions`): the script
round-trips it through `JSON.parse`/`JSON.stringify`, whose serialization is
injective in the `versions` array and leaves the template's other fields
untouched, so two metadata files differ exactly when their version lists do.
All other files are plain text.  Directories are tracked only as the set of
paths already created, which is what `mkdirSync` without `recursive` checks.
Thrown exceptions carry the filesystem at the time of the throw, since writes
already performed persist. -/

inductive FileData where
  | text (content : List Char)
  | metaJson (versions : List String)
deriving DecidableEq

structure FS where
  files : List (String × FileData)
  dirs : List String
deriving DecidableEq

def FS.read (fs : FS) (p : String) : Option FileData :=
  (fs.files.find? (fun e => e.1 == p)).map (fun e => e.2)

def FS.write (fs : FS) (p : String) (d : FileData) : FS :=
  { fs with files := (p, d) :: fs.files.filter (fun e => !(e.1 == p)) }

/-- `appendFileSync`: append to an existing file, or create it. -/
def FS.appendFile (fs : FS) (p : String) (chunk : List Char) : FS :=
  match fs.read p with
  | some (FileData.text c) => fs.write p (FileData.text (c ++ chunk))
  | some (FileData.metaJson _) => fs.write p (FileData.text chunk)
  | none => fs.write p (FileData.text chunk)

inductive WError where
  | usageError
  | typeError (msg : String)
  | parseError (msg : String)
  | fsError (msg : String)
  | networkError (msg : String)
deriving DecidableEq

def WError.isFsError : WError → Bool
  | WError.fsError _ => true
  | _ => false

/-- `mkdirSync` without `recursive`: fails with `EEXIST` when the directory
already exists. -/
def FS.mkdir (fs : FS) (p : String) : Except (WError × FS) FS :=
  if fs.dirs.contains p then Except.error (WError.fsError ("EEXIST: " ++ p), fs)
  else Except.ok { fs with dirs := p :: fs.dirs }

/-- `path.resolve(a, b)` for the relative path fragments the script joins. -/
def pjoin (a b : String) : String := a ++ "/" ++ b

/-- What `https.get` delivers for a URL: either a transport-level error
(`error` event on the request) or a response with a status code and a
sequence of body chunks.  No other outcome exists in the script's handlers. -/
inductive HttpResult where
  | transportError (msg : String)
  | response (status : Nat) (chunks : List (List Char))

/-- `download(url, dest)` (lines 158-173): on a response, each `data` chunk is
appended to `dest` with `appendFileSync` and `end` resolves the promise — the
status code is never inspected; on a request `error` event the promise is
rejected with the error's message. -/
def download (net : String → HttpResult) (fs : FS) (url dest : String) :
    Except (WError × FS) FS :=
  match net url with
  | HttpResult.transportError msg => Except.error (WError.networkError msg, fs)
  | HttpResult.response _ chunks =>
      Except.ok (chunks.foldl (fun acc chunk => acc.appendFile dest chunk) fs)

/-- The accumulated effect of appending every chunk of a response body. -/
def appendChunks (fs : FS) (dest : String) (chunks : List (List Char)) : FS :=
  chunks.foldl (fun acc chunk => acc.appendFile dest chunk) fs

/-- `getModuleName(projectPath)` (lines 57-67): read
`.bcr/MODULE.template.bazel` and run the module-name regex; throw when the
file is missing or the regex does not match. -/
def getModuleName (fs : FS) (projectPath : String) : Except (WError × FS) String :=
  match fs.read (pjoin (pjoin projectPath ".bcr") "MODULE.template.bazel") with
  | some (FileData.text content) =>
    match moduleNameOfContent content with
    | some name => Except.ok (String.mk name)
    | none => Except.error (WError.parseError "Could not parse module name from module file", fs)
  | some (FileData.metaJson _) =>
      Except.error (WError.parseError "Could not parse module name from module file", fs)
  | none => Except.error (WError.fsError "ENOENT: MODULE.template.bazel", fs)

/-- `writeMetadataFile(bcrEntryPath, projectPath, version)` (lines 69-87):
copy the template `metadata.json` when the destination does not exist, then
parse it, push the new version, sort, and write it back. -/
def writeMetadataFile (fs : FS) (bcrEntryPath projectPath : String) (version : String) :
    Except (WError × FS) FS := do
  let bcrMetadataPath := pjoin bcrEntryPath "metadata.json"
  let fs ←
    if (fs.read bcrMetadataPath).isSome then pure fs
    else
      match fs.read (pjoin (pjoin projectPath ".bcr") "metadata.template.json") with
      | some d => pure (fs.write bcrMetadataPath d)
      | none => Except.error (WError.fsError "ENOENT: metadata.template.json", fs)
  match fs.read bcrMetadataPath with
  | some (FileData.metaJson versions) =>
      Except.ok (fs.write bcrMetadataPath (FileData.metaJson (mergeVersions versions version)))
  | some (FileData.text _) => Except.error (WError.parseError "metadata.json", fs)
  | none => Except.error (WError.fsError "ENOENT: metadata.json", fs)

/-- `writeModuleFile` (lines 89-113): stamp `MODULE.template.bazel` and write
`MODULE.bazel` into the version directory. -/
def writeModuleFile (fs : FS) (projectPath bcrVersionEntryPath : String)
    (ownerSlashRepo version : String) : Except (WError × FS) FS :=
  match fs.read (pjoin (pjoin projectPath ".bcr") "MODULE.template.bazel") with
  | some (FileData.text content) =>
      Except.ok (fs.write (pjoin bcrVersionEntryPath "MODULE.bazel")
        (FileData.text (stampModule content ownerSlashRepo.toList version.toList)))
  | _ => Except.error (WError.fsError "ENOENT: MODULE.template.bazel", fs)

/-- The fixed destination of the archive download (line 127). -/
def artifactPath : String := "./artifact.tar.gz"

/-- `writeSourceFile` (lines 115-145): download the release archive to
`./artifact.tar.gz`, hash that file's content (`digest` stands for the
base64-encoded SHA-256 digest), stamp `source.template.json` and write
`source.json`. -/
def writeSourceFile (net : String → HttpResult) (digest : List Char → List Char)
    (fs : FS) (projectPath bcrVersionEntryPath : String)
    (ownerSlashRepo version : String) : Except (WError × FS) FS := do
  let fs ← download net fs (downloadUrl ownerSlashRepo version) artifactPath
  let artifactContent ←
    match fs.read artifactPath with
    | some (FileData.text c) => pure c
    | some (FileData.metaJson _) => Except.error (WError.fsError "EISDIR: artifact", fs)
    | none => Except.error (WError.fsError "ENOENT: artifact", fs)
  let hash := digest artifactContent
  match fs.read (pjoin (pjoin projectPath ".bcr") "source.template.json") with
  | some (FileData.text content) =>
      Except.ok (fs.write (pjoin bcrVersionEntryPath "source.json")
        (FileData.text (stampSource content ownerSlashRepo.toList version.toList hash)))
  | _ => Except.error (WError.fsError "ENOENT: source.template.json", fs)

/-- `writePresubmitFile` (lines 147-150): copy `presubmit.yml` verbatim. -/
def writePresubmitFile (fs : FS) (projectPath bcrVersionEntryPath : String) :
    Except (WError × FS) FS :=
  match fs.read (pjoin (pjoin projectPath ".bcr") "presubmit.yml") with
  | some d => Except.ok (fs.write (pjoin bcrVersionEntryPath "presubmit.yml") d)
  | none => Except.error (WError.fsError "ENOENT: presubmit.yml", fs)

/-- `main(argv)` (lines 27-55).  `normalizeVersion` is computed first but a
missing `v` prefix only surfaces later, when `resolve(bcrEntryPath, undefined)`
throws a `TypeError` — after `getModuleName` has run.  The version directory
is created *after* `writeMetadataFile` and before the three version-entry
files are written. -/
def mainRun (net : String → HttpResult) (digest : List Char → List Char)
    (fs : FS) (argv : List String) : Except (WError × FS) FS := do
  if argv.length == 4 then
    let projectPath := argv.getD 0 ""
    let bcrPath := argv.getD 1 ""
    let ownerSlashRepo := argv.getD 2 ""
    let moduleName ← getModuleName fs projectPath
    match normalizeVersion (argv.getD 3 "") with
    | none => Except.error (WError.typeError "resolve: path argument is undefined", fs)
    | some version => do
      let bcrEntryPath := pjoin (pjoin bcrPath "modules") moduleName
      let bcrVersionEntryPath := pjoin bcrEntryPath version
      let fs ← writeMetadataFile fs bcrEntryPath projectPath version
      let fs ← fs.mkdir bcrVersionEntryPath
      let fs ← writeModuleFile fs projectPath bcrVersionEntryPath ownerSlashRepo version
      let fs ← writeSourceFile net digest fs projectPath bcrVersionEntryPath ownerSlashRepo version
      writePresubmitFile fs projectPath bcrVersionEntryPath
  else Except.error (WError.usageError, fs)

/-! ## A concrete publish scenario, run twice

A project `proj` with the four `.bcr` inputs, a registry `bcr` whose module
directory already exists, a network that answers every URL with one body
chunk, and an arbitrary concrete digest function. -/

def scnModuleTemplate : List Char :=
  "module(\n    name = \"mylib\",\n    version = \"VERSION_PLACEHOLDER\",\n)\n# REPO_PLACEHOLDER\n".toList

def scnSourceTemplate : List Char :=
  "SHA256_PLACEHOLDER REPO_PLACEHOLDER-VERSION_PLACEHOLDER OWNER_SLASH_REPO_PLACEHOLDER vVERSION_PLACEHOLDER".toList

def scnFS : FS :=
  { files :=
      [ (pjoin (pjoin "proj" ".bcr") "MODULE.template.bazel", FileData.text scnModuleTemplate)
      , (pjoin (pjoin "proj" ".bcr") "metadata.template.json", FileData.metaJson [])
      , (pjoin (pjoin "proj" ".bcr") "source.template.json", FileData.text scnSourceTemplate)
      , (pjoin (pjoin "proj" ".bcr") "presubmit.yml", FileData.text "tasks:".toList) ]
  , dirs := ["bcr", "bcr/modules", "bcr/modules/mylib"] }

instance {ε α : Type} [DecidableEq ε] [DecidableEq α] : DecidableEq (Except ε α) := fun a b =>
  match a, b with
  | Except.ok x, Except.ok y => decidable_of_iff (x = y) (by simp)
  | Except.error x, Except.error y => decidable_of_iff (x = y) (by simp)
  | Except.ok _, Except.error _ => isFalse (by simp)
  | Except.error _, Except.ok _ => isFalse (by simp)

/-- The file found at `p` after a run, whether the run succeeded or threw. -/
def readAfter (r : Except (WError × FS) FS) (p : String) : Option FileData :=
  match r with
  | Except.ok fs => fs.read p
  | Except.error e => e.2.read p

def scnNet : String → HttpResult := fun _ => HttpResult.response 200 ["TAR".toList]

def scnDigest : List Char → List Char := fun c => 'd' :: c

def scnArgs : List String := ["proj", "bcr", "acme/mylib", "v1.0.0"]

def scnRun1 : Except (WError × FS) FS := mainRun scnNet scnDigest scnFS scnArgs

/-- The filesystem produced by the first invocation. -/
def scnFS1 : FS :=
  match scnRun1 with
  | Except.ok f => f
  | Except.error e => e.2

def scnRun2 : Except (WError × FS) FS := mainRun scnNet scnDigest scnFS1 scnArgs

/-- The filesystem left behind by the second (failing) invocation. -/
def scnFS2 : FS :=
  match scnRun2 with
  | Except.ok f => f
  | Except.error e => e.2

def scnMetadataPath : String := pjoin (pjoin (pjoin "bcr" "modules") "mylib") "metadata.json"

def scnVersionDir : String := pjoin (pjoin (pjoin "bcr" "modules") "mylib") "1.0.0"

/-! ## Concrete inputs used by the claim theorems -/

def c3FS : FS :=
  { files := [(pjoin "bcr/modules/mylib" "metadata.json", FileData.metaJson ["1.0.0"])]
  , dirs := [] }

def c7Content : List Char := "module(name = \"foo\", version = \"0.0.0\")".toList

def c7ContentMl : List Char :=
  "# release module\nmodule(\n    name = \"foo\",\n    version = \"0.0.0\",\n    compatibility_level = 1,\n)\n".toList

def c7ContentBad : List Char := "bazel_dep(name = \"foo\", version = \"1.0.0\")".toList

def c7MkFS (content : List Char) : FS :=
  { files := [(pjoin (pjoin "proj" ".bcr") "MODULE.template.bazel", FileData.text content)]
  , dirs := [] }

def c2FS : FS :=
  { files := [(pjoin (pjoin "proj" ".bcr") "MODULE.template.bazel",
      FileData.text "REPO_PLACEHOLDER VERSION_PLACEHOLDER VERSION_PLACEHOLDER".toList)]
  , dirs := [] }

def c6Stamped : List Char :=
  stampSource
    "SHA256_PLACEHOLDER VERSION_PLACEHOLDER OWNER_SLASH_REPO_PLACEHOLDER REPO_PLACEHOLDER".toList
    "acme/widget".toList "2.0.0".toList "abcd".toList

def c9Net : String → HttpResult := fun _ => HttpResult.response 404 ["NOT FOUND".toList]

def c9NetErr : String → HttpResult := fun _ => HttpResult.transportError "ECONNRESET"

def c9FS : FS := { files := [(artifactPath, FileData.text [])], dirs := [] }

def c8FS : FS :=
  { files := [(pjoin (pjoin "proj" ".bcr") "source.template.json", FileData.text scnSourceTemplate)]
  , dirs := [] }

def c10FS : FS :=
  { files :=
      [ (pjoin (pjoin "proj" ".bcr") "source.template.json", FileData.text scnSourceTemplate)
      , (artifactPath, FileData.text "STALE".toList) ]
  , dirs := [] }

/-! ## Lemmas about replacement -/

theorem replaceFirst_cons (pat rep : List Char) (c : Char) (cs : List Char) :
    replaceFirst (c :: cs) pat rep =
      if pat.isPrefixOf (c :: cs) then rep ++ (c :: cs).drop pat.length
      else c :: replaceFirst cs pat rep := rfl

theorem replaceAllGo_cons_zero (pat rep : List Char) (c : Char) (cs : List Char) :
    replaceAllGo pat rep (c :: cs) 0 =
      if pat.isPrefixOf (c :: cs) && !pat.isEmpty then
        rep ++ replaceAllGo pat rep cs (pat.length - 1)
      else c :: replaceAllGo pat rep cs 0 := rfl

theorem replaceAllGo_cons_succ (pat rep : List Char) (c : Char) (cs : List Char) (k : Nat) :
    replaceAllGo pat rep (c :: cs) (k + 1) = replaceAllGo pat rep cs k := rfl

theorem replaceFirst_skip (pat rep a b : List Char) (h : noStartB pat a b = true) :
    replaceFirst (a ++ b) pat rep = a ++ replaceFirst b pat rep := by
  induction a with
  | nil => rfl
  | cons c a ih =>
    simp only [noStartB, Bool.and_eq_true, Bool.not_eq_true'] at h
    rw [List.cons_append, replaceFirst_cons, h.1, ih h.2]
    simp

theorem replaceFirst_hit (pat rep b : List Char) (hne : pat ≠ []) :
    replaceFirst (pat ++ b) pat rep = rep ++ b := by
  match pat, hne with
  | p :: ps, _ =>
    have hpre : (p :: ps).isPrefixOf ((p :: ps) ++ b) = true := by
      rw [List.isPrefixOf_iff_prefix]
      exact List.prefix_append _ _
    rw [List.cons_append, replaceFirst_cons]
    rw [show (p :: (ps ++ b)) = (p :: ps) ++ b from rfl, hpre]
    simp [List.drop_left]

theorem replaceFirst_none (pat rep b : List Char) (h : containsSub b pat = false) :
    replaceFirst b pat rep = b := by
  induction b with
  | nil =>
    simp only [containsSub] at h
    simp [replaceFirst, h]
  | cons c cs ih =>
    simp only [containsSub, Bool.or_eq_false_iff] at h
    rw [replaceFirst_cons, h.1, ih h.2]
    simp

theorem replaceAllGo_consume (pat rep : List Char) (x b : List Char) :
    replaceAllGo pat rep (x ++ b) x.length = replaceAllGo pat rep b 0 := by
  induction x with
  | nil => rfl
  | cons c x ih =>
    rw [List.cons_append, List.length_cons, replaceAllGo_cons_succ]
    exact ih

theorem replaceAll_skip (pat rep a b : List Char) (h : noStartB pat a b = true) :
    replaceAllGo pat rep (a ++ b) 0 = a ++ replaceAllGo pat rep b 0 := by
  induction a with
  | nil => rfl
  | cons c a ih =>
    simp only [noStartB, Bool.and_eq_true, Bool.not_eq_true'] at h
    rw [List.cons_append, replaceAllGo_cons_zero, h.1, ih h.2]
    simp

theorem replaceAll_hit (pat rep b : List Char) (hne : pat ≠ []) :
    replaceAllGo pat rep (pat ++ b) 0 = rep ++ replaceAllGo pat rep b 0 := by
  match pat, hne with
  | p :: ps, _ =>
    have hpre : (p :: ps).isPrefixOf ((p :: ps) ++ b) = true := by
      rw [List.isPrefixOf_iff_prefix]
      exact List.prefix_append _ _
    rw [List.cons_append, replaceAllGo_cons_zero]
    rw [show (p :: (ps ++ b)) = (p :: ps) ++ b from rfl, hpre]
    simp only [List.isEmpty_cons, Bool.not_false, Bool.true_and, if_true,
      List.length_cons, Nat.add_sub_cancel]
    rw [replaceAllGo_consume]

theorem replaceAll_none (pat rep b : List Char) (h : containsSub b pat = false) :
    replaceAllGo pat rep b 0 = b := by
  induction b with
  | nil => rfl
  | cons c cs ih =>
    simp only [containsSub, Bool.or_eq_false_iff] at h
    rw [replaceAllGo_cons_zero, h.1, ih h.2]
    simp

/-! ## Lemmas about sorting -/

theorem lexLe_total (a b : List Char) : lexLe a b = true ∨ lexLe b a = true := by
  induction a generalizing b with
  | nil => left; rfl
  | cons x xs ih =>
    cases b with
    | nil => right; rfl
    | cons y ys =>
      rcases lt_trichotomy x y with hlt | heq | hgt
      · left; simp [lexLe, hlt]
      · subst heq
        have := ih ys
        rcases this with h | h
        · left; simp [lexLe, lt_irrefl, h]
        · right; simp [lexLe, lt_irrefl, h]
      · right; simp [lexLe, hgt]

theorem verLe_total (a b : String) : verLe a b = true ∨ verLe b a = true :=
  lexLe_total a.data b.data

theorem insertSorted_perm (le : String → String → Bool) (v : String) (l : List String) :
    (insertSorted le v l).Perm (v :: l) := by
  induction l with
  | nil => exact List.Perm.refl _
  | cons w ws ih =>
    simp only [insertSorted]
    by_cases h : le v w = true
    · simp [h]
    · simp only [h, Bool.false_eq_true, if_false]
      exact List.Perm.trans (List.Perm.cons w ih) (List.Perm.swap v w ws)

theorem sortL_perm (le : String → String → Bool) (l : List String) :
    (sortL le l).Perm l := by
  induction l with
  | nil => exact List.Perm.refl _
  | cons v vs ih =>
    exact List.Perm.trans (insertSorted_perm le v (sortL le vs)) (List.Perm.cons v ih)

theorem isSortedBy_tail (le : String → String → Bool) (a : String) (l : List String)
    (h : isSortedBy le (a :: l) = true) : isSortedBy le l = true := by
  cases l with
  | nil => rfl
  | cons b t =>
    simp only [isSortedBy, Bool.and_eq_true] at h
    exact h.2

theorem insertSorted_sorted (le : String → String → Bool)
    (htot : ∀ a b, le a b = true ∨ le b a = true) (v : String) (l : List String)
    (h : isSortedBy le l = true) : isSortedBy le (insertSorted le v l) = true := by
  induction l with
  | nil => rfl
  | cons w ws ih =>
    simp only [insertSorted]
    by_cases h1 : le v w = true
    · simp only [h1, if_true]
      simp [isSortedBy, h1, h]
    · simp only [h1, Bool.false_eq_true, if_false]
      have hwv : le w v = true := (htot v w).resolve_left h1
      cases ws with
      | nil => simp [insertSorted, isSortedBy, hwv]
      | cons u us =>
        simp only [isSortedBy, Bool.and_eq_true] at h
        simp only [insertSorted]
        by_cases h2 : le v u = true
        · simp only [h2, if_true]
          simp [isSortedBy, hwv, h2, h.2]
        · simp only [h2, Bool.false_eq_true, if_false]
          have htail : isSortedBy le (insertSorted le v (u :: us)) = true := ih h.2
          simp only [insertSorted, h2, Bool.false_eq_true, if_false] at htail
          simp [isSortedBy, h.1, htail]

theorem sortL_sorted (le : String → String → Bool)
    (htot : ∀ a b, le a b = true ∨ le b a = true) (l : List String) :
    isSortedBy le (sortL le l) = true := by
  induction l with
  | nil => rfl
  | cons v vs ih => exact insertSorted_sorted le htot v (sortL le vs) ih

theorem mergeVersions_perm (vs : List String) (v : String) :
    (mergeVersions vs v).Perm (vs ++ [v]) :=
  sortL_perm verLe (vs ++ [v])

theorem mergeVersions_sorted (vs : List String) (v : String) :
    isSortedBy verLe (mergeVersions vs v) = true :=
  sortL_sorted verLe verLe_total (vs ++ [v])

/-! ## A lemma about `afterSlash` -/

theorem dropWhile_through (o r : List Char) (h : o.contains '/' = false) :
    (o ++ '/' :: r).dropWhile (fun c => !(c == '/')) = '/' :: r := by
  induction o with
  | nil => simp [List.dropWhile]
  | cons c o ih =>
    simp only [List.contains_cons, Bool.or_eq_false_iff] at h
    have hc : (c == '/') = false := by
      cases hbe : c == '/'
      · rfl
      · rw [beq_iff_eq] at hbe
        rw [hbe] at h
        simp at h
    simp only [List.cons_append, List.dropWhile, hc, Bool.not_false, if_true]
    exact ih h.2

theorem afterSlash_split (o r : List Char) (h : o.contains '/' = false) :
    afterSlash (o ++ '/' :: r) = r := by
  have hmem : (o ++ '/' :: r).contains '/' = true := by
    induction o with
    | nil => simp
    | cons c o ih => simp [ih]
  simp only [afterSlash, hmem, if_true]
  rw [dropWhile_through o r h]
  rfl

/-- First-occurrence replacement through a clean prefix. -/
theorem replaceFirst_split (pat rep pre b : List Char)
    (h : noStartB pat pre (pat ++ b) = true) (hne : pat ≠ []) :
    replaceFirst (pre ++ (pat ++ b)) pat rep = pre ++ (rep ++ b) := by
  rw [replaceFirst_skip pat rep pre (pat ++ b) h, replaceFirst_hit pat rep b hne]

/-- Global replacement through a clean prefix: one occurrence consumed, the
scan continues after the replacement. -/
theorem replaceAll_split (pat rep pre b : List Char)
    (h : noStartB pat pre (pat ++ b) = true) (hne : pat ≠ []) :
    replaceAllGo pat rep (pre ++ (pat ++ b)) 0 = pre ++ (rep ++ replaceAllGo pat rep b 0) := by
  rw [replaceAll_skip pat rep pre (pat ++ b) h, replaceAll_hit pat rep b hne]

/-! ## Lemmas about the filesystem model -/

theorem FS.read_write_self (fs : FS) (p : String) (d : FileData) :
    (fs.write p d).read p = some d := by
  simp [FS.read, FS.write, List.find?]

theorem find?_filter_ne (l : List (String × FileData)) (p q : String) (h : q ≠ p) :
    (l.filter (fun e => !(e.1 == p))).find? (fun e => e.1 == q)
      = l.find? (fun e => e.1 == q) := by
  rw [List.find?_filter]
  induction l with
  | nil => rfl
  | cons e l ih =>
    rw [List.find?_cons, List.find?_cons]
    cases he : (e.1 == q) with
    | true =>
      have hep : (e.1 == p) = false := by
        rw [beq_iff_eq] at he
        rw [he]
        simp [h]
      simp [hep, he]
    | false => simp only [he, Bool.and_false, Bool.false_and]; simpa using ih

theorem FS.read_write_ne (fs : FS) (p q : String) (d : FileData) (h : q ≠ p) :
    (fs.write p d).read q = fs.read q := by
  have hpq : (p == q) = false := by
    cases hb : p == q
    · rfl
    · rw [beq_iff_eq] at hb
      exact absurd hb.symm h
  simp only [FS.read, FS.write, List.find?, hpq]
  rw [find?_filter_ne fs.files p q h]

theorem FS.appendFile_read_self_text (fs : FS) (p : String) (pre chunk : List Char)
    (h : fs.read p = some (FileData.text pre)) :
    (fs.appendFile p chunk).read p = some (FileData.text (pre ++ chunk)) := by
  simp only [FS.appendFile, h]
  exact FS.read_write_self fs p _

theorem FS.appendFile_read_ne (fs : FS) (p q : String) (chunk : List Char) (h : q ≠ p) :
    (fs.appendFile p chunk).read q = fs.read q := by
  unfold FS.appendFile
  cases hr : fs.read p with
  | none => exact FS.read_write_ne fs p q _ h
  | some d => cases d <;> exact FS.read_write_ne fs p q _ h

theorem appendChunks_read_self (dest : String) (chunks : List (List Char)) :
    ∀ (fs : FS) (pre : List Char), fs.read dest = some (FileData.text pre) →
      (appendChunks fs dest chunks).read dest = some (FileData.text (pre ++ chunks.flatten)) := by
  induction chunks with
  | nil => intro fs pre h; simpa [appendChunks] using h
  | cons chunk chunks ih =>
    intro fs pre h
    have hstep := FS.appendFile_read_self_text fs dest pre chunk h
    have := ih (fs.appendFile dest chunk) (pre ++ chunk) hstep
    simpa [appendChunks, List.append_assoc] using this

theorem appendChunks_read_self_of_absent (dest : String) (chunks : List (List Char))
    (fs : FS) (hn : fs.read dest = none) (hne : chunks ≠ []) :
    (appendChunks fs dest chunks).read dest = some (FileData.text chunks.flatten) := by
  match chunks, hne with
  | chunk :: chunks, _ =>
    have hstep : (fs.appendFile dest chunk).read dest = some (FileData.text chunk) := by
      simp only [FS.appendFile, hn]
      exact FS.read_write_self fs dest _
    have := appendChunks_read_self dest chunks (fs.appendFile dest chunk) chunk hstep
    simpa [appendChunks] using this

theorem appendChunks_read_ne (dest q : String) (chunks : List (List Char))
    (h : q ≠ dest) : ∀ fs : FS, (appendChunks fs dest chunks).read q = fs.read q := by
  induction chunks with
  | nil => intro fs; rfl
  | cons chunk chunks ih =>
    intro fs
    have := ih (fs.appendFile dest chunk)
    rw [appendChunks] at this ⊢
    simp only [List.foldl_cons] at this ⊢
    rw [this, FS.appendFile_read_ne fs dest q chunk h]

/-! ## Path disambiguation

The three paths the source-file step touches end in different characters, so
they are pairwise distinct no matter what the directory arguments are. -/

theorem pjoin_data (a b : String) : (pjoin a b).data = a.data ++ '/' :: b.data := by
  simp [pjoin, String.data_append]

theorem pjoin_getLast (a b : String) (hb : b.data ≠ []) :
    (pjoin a b).data.getLast? = b.data.getLast? := by
  rw [pjoin_data]
  rw [show a.data ++ '/' :: b.data = (a.data ++ ['/']) ++ b.data by simp]
  rw [List.getLast?_append]
  match hd : b.data, hb with
  | c :: cs, _ => simp [List.getLast?]

theorem ne_of_getLast (s t : String) (h : s.data.getLast? ≠ t.data.getLast?) : s ≠ t :=
  fun he => h (by rw [he])

theorem source_json_ne_artifact (v : String) : pjoin v "source.json" ≠ artifactPath := by
  apply ne_of_getLast
  rw [pjoin_getLast v "source.json" (by decide)]
  decide

theorem source_template_ne_artifact (p : String) :
    pjoin (pjoin p ".bcr") "source.template.json" ≠ artifactPath := by
  apply ne_of_getLast
  rw [pjoin_getLast _ "source.template.json" (by decide)]
  decide

/-! ## Claim theorems -/

/-- C4: `normalizeVersion` maps every version string of the form `v<X>` to
`X`, and returns no value (`undefined`, modelled `none`) on every version
string not starting with `v`. -/
theorem claim_C4_normalizeVersion :
    (∀ X : String, normalizeVersion (String.mk ('v' :: X.data)) = some X) ∧
    (∀ v : String, v.data.head? ≠ some 'v' → normalizeVersion v = none) := by
  constructor
  · intro X
    cases X
    rfl
  · intro v h
    unfold normalizeVersion
    split
    · rename_i rest heq
      exact absurd (by rw [heq]; rfl) h
    · rfl

/-- Witness for C4 at the concrete tags `v1.2.3` and `1.2.3`. -/
theorem claim_C4_normalizeVersion_witness :
    normalizeVersion (String.mk ('v' :: "1.2.3".data)) = some "1.2.3" ∧
    normalizeVersion "1.2.3" = none :=
  ⟨claim_C4_normalizeVersion.1 "1.2.3", claim_C4_normalizeVersion.2 "1.2.3" (by decide)⟩

/-- C5: the metadata merge appends the new version and sorts the whole list
as strings with no de-duplication — the result is a permutation of the old
list plus the new version (so one element longer), is sorted, and on the
spec's example yields exactly `["1.0.0", "1.1.0", "1.2.0"]`. -/
theorem claim_C5_mergeVersions :
    (∀ (vs : List String) (v : String),
      (mergeVersions vs v).Perm (vs ++ [v]) ∧
      (mergeVersions vs v).length = vs.length + 1 ∧
      isSortedBy verLe (mergeVersions vs v) = true) ∧
    mergeVersions ["1.0.0", "1.2.0"] "1.1.0" = ["1.0.0", "1.1.0", "1.2.0"] := by
  refine ⟨fun vs v => ⟨mergeVersions_perm vs v, ?_, mergeVersions_sorted vs v⟩, by decide⟩
  rw [(mergeVersions_perm vs v).length_eq]
  simp

/-- C3 counterexample: publishing a version that is already present appends a
duplicate — the persisted `versions` list becomes `["1.0.0", "1.0.0"]`, which
is not duplicate-free, refuting the claimed uniqueness invariant. -/
theorem claim_C3_counterexample :
    readAfter (writeMetadataFile c3FS "bcr/modules/mylib" "proj" "1.0.0")
        (pjoin "bcr/modules/mylib" "metadata.json")
      = some (FileData.metaJson ["1.0.0", "1.0.0"]) ∧
    ¬ (["1.0.0", "1.0.0"] : List String).Nodup := by
  exact ⟨by decide, by decide⟩

/-- C3 amended: every publish keeps the `versions` list sorted, but
uniqueness is preserved only when the published version is not already
present; publishing a present version always breaks uniqueness (no
de-duplication is performed). -/
theorem claim_C3_amended (fs : FS) (entry proj v : String) (old : List String)
    (h : fs.read (pjoin entry "metadata.json") = some (FileData.metaJson old)) :
    writeMetadataFile fs entry proj v =
      Except.ok (fs.write (pjoin entry "metadata.json")
        (FileData.metaJson (mergeVersions old v))) ∧
    isSortedBy verLe (mergeVersions old v) = true ∧
    (v ∉ old → old.Nodup → (mergeVersions old v).Nodup) ∧
    (v ∈ old → ¬ (mergeVersions old v).Nodup) := by
  refine ⟨?_, mergeVersions_sorted old v, ?_, ?_⟩
  · unfold writeMetadataFile
    simp [h]
  · intro hv hn
    have hperm : (mergeVersions old v).Perm (v :: old) :=
      (mergeVersions_perm old v).trans (List.perm_append_singleton v old)
    rw [hperm.nodup_iff, List.nodup_cons]
    exact ⟨hv, hn⟩
  · intro hv hn
    have hperm : (mergeVersions old v).Perm (v :: old) :=
      (mergeVersions_perm old v).trans (List.perm_append_singleton v old)
    rw [hperm.nodup_iff, List.nodup_cons] at hn
    exact hn.1 hv

/-- Witness for C3 (amended) at a fresh version `1.1.0` over `["1.0.0"]`. -/
theorem claim_C3_amended_witness :
    writeMetadataFile c3FS "bcr/modules/mylib" "proj" "1.1.0" =
      Except.ok (c3FS.write (pjoin "bcr/modules/mylib" "metadata.json")
        (FileData.metaJson (mergeVersions ["1.0.0"] "1.1.0"))) ∧
    isSortedBy verLe (mergeVersions ["1.0.0"] "1.1.0") = true ∧
    ("1.1.0" ∉ ["1.0.0"] → (["1.0.0"] : List String).Nodup →
      (mergeVersions ["1.0.0"] "1.1.0").Nodup) ∧
    ("1.1.0" ∈ ["1.0.0"] → ¬ (mergeVersions ["1.0.0"] "1.1.0").Nodup) :=
  claim_C3_amended c3FS "bcr/modules/mylib" "proj" "1.1.0" ["1.0.0"] (by decide)

/-- C7: the module-name reader captures the identifier of
`module(... name = "<identifier>" ...)`, tolerating surrounding content and
newlines, and fails with the parse error when the pattern does not match. -/
theorem claim_C7_getModuleName :
    getModuleName (c7MkFS c7Content) "proj" = Except.ok "foo" ∧
    getModuleName (c7MkFS c7ContentMl) "proj" = Except.ok "foo" ∧
    getModuleName (c7MkFS c7ContentBad) "proj" =
      Except.error (WError.parseError "Could not parse module name from module file",
        c7MkFS c7ContentBad) := by
  refine ⟨by decide, by decide, by decide⟩

/-- C2 counterexample: the module-manifest stamping uses plain string
`replace`, which substitutes only the *first* occurrence of
`VERSION_PLACEHOLDER`; on a template with two occurrences, the file written
to `MODULE.bazel` still contains the placeholder, refuting the claim that
every occurrence is replaced. -/
theorem claim_C2_counterexample :
    readAfter (writeModuleFile c2FS "proj" "bcr/modules/mylib/1.0.0" "acme/widget" "1.0.0")
        (pjoin "bcr/modules/mylib/1.0.0" "MODULE.bazel")
      = some (FileData.text "acme/widget 1.0.0 VERSION_PLACEHOLDER".toList) ∧
    containsSub "acme/widget 1.0.0 VERSION_PLACEHOLDER".toList VERSION_PLACEHOLDER = true := by
  exact ⟨by decide, by decide⟩

/-- C2 amended: module-manifest stamping replaces only the first occurrence
of `REPO_PLACEHOLDER` (by the owner/repo identifier) and the first occurrence
of `VERSION_PLACEHOLDER` (by the normalized version); the rest of the
template — including any later placeholder occurrences in the suffix — is
written out unchanged. -/
theorem claim_C2_amended (a b c repo version : List Char)
    (h1 : noStartB REPO_PLACEHOLDER a
        (REPO_PLACEHOLDER ++ (b ++ (VERSION_PLACEHOLDER ++ c))) = true)
    (h2 : noStartB VERSION_PLACEHOLDER (a ++ (repo ++ b))
        (VERSION_PLACEHOLDER ++ c) = true) :
    stampModule (a ++ (REPO_PLACEHOLDER ++ (b ++ (VERSION_PLACEHOLDER ++ c)))) repo version
      = a ++ (repo ++ (b ++ (version ++ c))) := by
  unfold stampModule
  rw [replaceFirst_split REPO_PLACEHOLDER repo a (b ++ (VERSION_PLACEHOLDER ++ c)) h1 (by decide)]
  rw [show a ++ (repo ++ (b ++ (VERSION_PLACEHOLDER ++ c)))
      = (a ++ (repo ++ b)) ++ (VERSION_PLACEHOLDER ++ c) by simp [List.append_assoc]]
  rw [replaceFirst_split VERSION_PLACEHOLDER version (a ++ (repo ++ b)) c h2 (by decide)]
  simp [List.append_assoc]

/-- Witness for C2 (amended): a template whose suffix carries a second
`VERSION_PLACEHOLDER`; the first occurrences are substituted and the second
version placeholder survives. -/
theorem claim_C2_amended_witness :
    stampModule ("x ".toList ++ (REPO_PLACEHOLDER ++ (" y ".toList ++
        (VERSION_PLACEHOLDER ++ " z VERSION_PLACEHOLDER".toList))))
      "acme/widget".toList "1.0.0".toList
      = "x ".toList ++ ("acme/widget".toList ++ (" y ".toList ++
          ("1.0.0".toList ++ " z VERSION_PLACEHOLDER".toList))) :=
  claim_C2_amended "x ".toList " y ".toList " z VERSION_PLACEHOLDER".toList
    "acme/widget".toList "1.0.0".toList (by decide) (by decide)

/-- C6 counterexample: because `REPO_PLACEHOLDER` is a substring of
`OWNER_SLASH_REPO_PLACEHOLDER` and the single replacements run in the order
repo-name first, owner/repo second, a template in which the owner/repo token
precedes the repo token is mangled: the repo-name lands inside the owner/repo
token, the standalone `REPO_PLACEHOLDER` survives, and the output is not the
claimed full substitution. -/
theorem claim_C6_counterexample :
    c6Stamped = "sha256-abcd 2.0.0 OWNER_SLASH_widget REPO_PLACEHOLDER".toList ∧
    c6Stamped ≠ "sha256-abcd 2.0.0 acme/widget widget".toList ∧
    containsSub c6Stamped REPO_PLACEHOLDER = true := by
  refine ⟨by decide, by decide, by decide⟩

/-- C6 amended: the source-descriptor stamping performs, in order, a global
replacement of `VERSION_PLACEHOLDER`, then first-occurrence replacements of
`REPO_PLACEHOLDER` (with the substring of owner/repo after the `/`),
`OWNER_SLASH_REPO_PLACEHOLDER` (the full identifier) and `SHA256_PLACEHOLDER`
(`sha256-` before the digest).  The claimed output holds for templates in
which the first occurrence of the substring `REPO_PLACEHOLDER` is the
standalone token, i.e. precedes the owner/repo token. -/
theorem claim_C6_amended :
    (∀ (a b c d e f osr ver dig : List Char),
      noStartB VERSION_PLACEHOLDER
          (a ++ (SHA256_PLACEHOLDER ++ (b ++ (REPO_PLACEHOLDER ++ c))))
          (VERSION_PLACEHOLDER ++ (d ++ (OWNER_SLASH_REPO_PLACEHOLDER ++
            (e ++ (VERSION_PLACEHOLDER ++ f))))) = true →
      noStartB VERSION_PLACEHOLDER (d ++ (OWNER_SLASH_REPO_PLACEHOLDER ++ e))
          (VERSION_PLACEHOLDER ++ f) = true →
      containsSub f VERSION_PLACEHOLDER = false →
      noStartB REPO_PLACEHOLDER (a ++ (SHA256_PLACEHOLDER ++ b))
          (REPO_PLACEHOLDER ++ (c ++ (ver ++ (d ++ (OWNER_SLASH_REPO_PLACEHOLDER ++
            (e ++ (ver ++ f))))))) = true →
      noStartB OWNER_SLASH_REPO_PLACEHOLDER
          (a ++ (SHA256_PLACEHOLDER ++ (b ++ (afterSlash osr ++ (c ++ (ver ++ d))))))
          (OWNER_SLASH_REPO_PLACEHOLDER ++ (e ++ (ver ++ f))) = true →
      noStartB SHA256_PLACEHOLDER a
          (SHA256_PLACEHOLDER ++ (b ++ (afterSlash osr ++ (c ++ (ver ++
            (d ++ (osr ++ (e ++ (ver ++ f))))))))) = true →
      stampSource
        (a ++ (SHA256_PLACEHOLDER ++ (b ++ (REPO_PLACEHOLDER ++ (c ++
          (VERSION_PLACEHOLDER ++ (d ++ (OWNER_SLASH_REPO_PLACEHOLDER ++
            (e ++ (VERSION_PLACEHOLDER ++ f))))))))))
        osr ver dig
        = a ++ (("sha256-".toList ++ dig) ++ (b ++ (afterSlash osr ++ (c ++
            (ver ++ (d ++ (osr ++ (e ++ (ver ++ f)))))))))) ∧
    (∀ o r : List Char, o.contains '/' = false → afterSlash (o ++ '/' :: r) = r) := by
  constructor
  · intro a b c d e f osr ver dig h1 h2 h3 h4 h5 h6
    have hVne : VERSION_PLACEHOLDER ≠ ([] : List Char) := by decide
    have hRne : REPO_PLACEHOLDER ≠ ([] : List Char) := by decide
    have hOne : OWNER_SLASH_REPO_PLACEHOLDER ≠ ([] : List Char) := by decide
    have hSne : SHA256_PLACEHOLDER ≠ ([] : List Char) := by decide
    have e1 : replaceAll
        (a ++ (SHA256_PLACEHOLDER ++ (b ++ (REPO_PLACEHOLDER ++ (c ++
          (VERSION_PLACEHOLDER ++ (d ++ (OWNER_SLASH_REPO_PLACEHOLDER ++
            (e ++ (VERSION_PLACEHOLDER ++ f))))))))))
        VERSION_PLACEHOLDER ver
        = a ++ (SHA256_PLACEHOLDER ++ (b ++ (REPO_PLACEHOLDER ++ (c ++
            (ver ++ (d ++ (OWNER_SLASH_REPO_PLACEHOLDER ++ (e ++ (ver ++ f))))))))) := by
      unfold replaceAll
      rw [show a ++ (SHA256_PLACEHOLDER ++ (b ++ (REPO_PLACEHOLDER ++ (c ++
            (VERSION_PLACEHOLDER ++ (d ++ (OWNER_SLASH_REPO_PLACEHOLDER ++
              (e ++ (VERSION_PLACEHOLDER ++ f)))))))))
          = (a ++ (SHA256_PLACEHOLDER ++ (b ++ (REPO_PLACEHOLDER ++ c)))) ++
            (VERSION_PLACEHOLDER ++ ((d ++ (OWNER_SLASH_REPO_PLACEHOLDER ++ e)) ++
              (VERSION_PLACEHOLDER ++ f))) by simp [List.append_assoc]]
      rw [replaceAll_split VERSION_PLACEHOLDER ver
        (a ++ (SHA256_PLACEHOLDER ++ (b ++ (REPO_PLACEHOLDER ++ c))))
        ((d ++ (OWNER_SLASH_REPO_PLACEHOLDER ++ e)) ++ (VERSION_PLACEHOLDER ++ f))
        (by simpa [List.append_assoc] using h1) hVne]
      rw [replaceAll_split VERSION_PLACEHOLDER ver
        (d ++ (OWNER_SLASH_REPO_PLACEHOLDER ++ e)) f
        (by simpa [List.append_assoc] using h2) hVne]
      rw [replaceAll_none VERSION_PLACEHOLDER ver f h3]
      simp [List.append_assoc]
    have e2 : replaceFirst
        (a ++ (SHA256_PLACEHOLDER ++ (b ++ (REPO_PLACEHOLDER ++ (c ++
          (ver ++ (d ++ (OWNER_SLASH_REPO_PLACEHOLDER ++ (e ++ (ver ++ f))))))))))
        REPO_PLACEHOLDER (afterSlash osr)
        = a ++ (SHA256_PLACEHOLDER ++ (b ++ (afterSlash osr ++ (c ++
            (ver ++ (d ++ (OWNER_SLASH_REPO_PLACEHOLDER ++ (e ++ (ver ++ f))))))))) := by
      rw [show a ++ (SHA256_PLACEHOLDER ++ (b ++ (REPO_PLACEHOLDER ++ (c ++
            (ver ++ (d ++ (OWNER_SLASH_REPO_PLACEHOLDER ++ (e ++ (ver ++ f)))))))))
          = (a ++ (SHA256_PLACEHOLDER ++ b)) ++ (REPO_PLACEHOLDER ++ (c ++
            (ver ++ (d ++ (OWNER_SLASH_REPO_PLACEHOLDER ++ (e ++ (ver ++ f)))))))
          by simp [List.append_assoc]]
      rw [replaceFirst_split REPO_PLACEHOLDER (afterSlash osr)
        (a ++ (SHA256_PLACEHOLDER ++ b))
        (c ++ (ver ++ (d ++ (OWNER_SLASH_REPO_PLACEHOLDER ++ (e ++ (ver ++ f))))))
        (by simpa [List.append_assoc] using h4) hRne]
      simp [List.append_assoc]
    have e3 : replaceFirst
        (a ++ (SHA256_PLACEHOLDER ++ (b ++ (afterSlash osr ++ (c ++
          (ver ++ (d ++ (OWNER_SLASH_REPO_PLACEHOLDER ++ (e ++ (ver ++ f))))))))))
        OWNER_SLASH_REPO_PLACEHOLDER osr
        = a ++ (SHA256_PLACEHOLDER ++ (b ++ (afterSlash osr ++ (c ++
            (ver ++ (d ++ (osr ++ (e ++ (ver ++ f))))))))) := by
      rw [show a ++ (SHA256_PLACEHOLDER ++ (b ++ (afterSlash osr ++ (c ++
            (ver ++ (d ++ (OWNER_SLASH_REPO_PLACEHOLDER ++ (e ++ (ver ++ f)))))))))
          = (a ++ (SHA256_PLACEHOLDER ++ (b ++ (afterSlash osr ++ (c ++ (ver ++ d)))))) ++
            (OWNER_SLASH_REPO_PLACEHOLDER ++ (e ++ (ver ++ f)))
          by simp [List.append_assoc]]
      rw [replaceFirst_split OWNER_SLASH_REPO_PLACEHOLDER osr
        (a ++ (SHA256_PLACEHOLDER ++ (b ++ (afterSlash osr ++ (c ++ (ver ++ d))))))
        (e ++ (ver ++ f)) (by simpa [List.append_assoc] using h5) hOne]
      simp [List.append_assoc]
    have e4 : replaceFirst
        (a ++ (SHA256_PLACEHOLDER ++ (b ++ (afterSlash osr ++ (c ++
          (ver ++ (d ++ (osr ++ (e ++ (ver ++ f))))))))))
        SHA256_PLACEHOLDER ("sha256-".toList ++ dig)
        = a ++ (("sha256-".toList ++ dig) ++ (b ++ (afterSlash osr ++ (c ++
            (ver ++ (d ++ (osr ++ (e ++ (ver ++ f))))))))) := by
      rw [replaceFirst_split SHA256_PLACEHOLDER ("sha256-".toList ++ dig) a
        (b ++ (afterSlash osr ++ (c ++ (ver ++ (d ++ (osr ++ (e ++ (ver ++ f))))))))
        (by simpa [List.append_assoc] using h6) hSne]
    unfold stampSource
    rw [e1, e2, e3, e4]
  · exact afterSlash_split

/-- Witness for C6 (amended) at the spec's example inputs
(`owner/repo = acme/widget`, version `2.0.0`, hash `abcd`) on a template
holding all four tokens, the version token twice. -/
theorem claim_C6_amended_witness :
    stampSource ("i: ".toList ++ (SHA256_PLACEHOLDER ++ (" sp: ".toList ++
        (REPO_PLACEHOLDER ++ ("-".toList ++ (VERSION_PLACEHOLDER ++
          (" url: gh/".toList ++ (OWNER_SLASH_REPO_PLACEHOLDER ++
            ("/archive/v".toList ++ (VERSION_PLACEHOLDER ++ ".tar.gz".toList))))))))))
      "acme/widget".toList "2.0.0".toList "abcd".toList
      = "i: ".toList ++ (("sha256-".toList ++ "abcd".toList) ++ (" sp: ".toList ++
          (afterSlash "acme/widget".toList ++ ("-".toList ++ ("2.0.0".toList ++
            (" url: gh/".toList ++ ("acme/widget".toList ++
              ("/archive/v".toList ++ ("2.0.0".toList ++ ".tar.gz".toList))))))))) ∧
    afterSlash ("acme".toList ++ '/' :: "widget".toList) = "widget".toList :=
  ⟨claim_C6_amended.1 "i: ".toList " sp: ".toList "-".toList " url: gh/".toList
      "/archive/v".toList ".tar.gz".toList "acme/widget".toList "2.0.0".toList "abcd".toList
      (by decide) (by decide) (by decide) (by decide) (by decide) (by decide),
    claim_C6_amended.2 "acme".toList "widget".toList (by decide)⟩

theorem except_ok_bind {ε α β : Type} (a : α) (k : α → Except ε β) :
    Except.ok a >>= k = k a := rfl

/-- C9: the download promise resolves for every HTTP response whatever its
status code — the handlers never inspect it — appending the response body
(e.g. a 404 error page) to the destination file; only a transport-level
request error rejects, as a NetworkError. -/
theorem claim_C9_download :
    (∀ (net : String → HttpResult) (fs : FS) (url dest : String) (status : Nat)
        (chunks : List (List Char)) (pre : List Char),
      net url = HttpResult.response status chunks →
      fs.read dest = some (FileData.text pre) →
      ∃ fs', download net fs url dest = Except.ok fs' ∧
        fs'.read dest = some (FileData.text (pre ++ chunks.flatten))) ∧
    (∀ (net : String → HttpResult) (fs : FS) (url dest : String) (msg : String),
      net url = HttpResult.transportError msg →
      download net fs url dest = Except.error (WError.networkError msg, fs)) := by
  constructor
  · intro net fs url dest status chunks pre hnet hread
    refine ⟨appendChunks fs dest chunks, ?_, appendChunks_read_self dest chunks fs pre hread⟩
    simp [download, hnet, appendChunks]
  · intro net fs url dest msg hnet
    simp [download, hnet]

/-- Witness for C9: a 404 response is accepted and its body lands in the
artifact file; a transport error is rejected as a NetworkError. -/
theorem claim_C9_download_witness :
    (∃ fs', download c9Net c9FS "https://github.com/acme/widget/archive/v9.9.9.tar.gz"
        artifactPath = Except.ok fs' ∧
      fs'.read artifactPath = some (FileData.text (([] : List Char) ++ [("NOT FOUND".toList)].flatten))) ∧
    download c9NetErr c9FS "https://github.com/acme/widget/archive/v9.9.9.tar.gz"
        artifactPath = Except.error (WError.networkError "ECONNRESET", c9FS) :=
  ⟨claim_C9_download.1 c9Net c9FS "https://github.com/acme/widget/archive/v9.9.9.tar.gz"
      artifactPath 404 ["NOT FOUND".toList] [] rfl (by decide),
   claim_C9_download.2 c9NetErr c9FS "https://github.com/acme/widget/archive/v9.9.9.tar.gz"
      artifactPath "ECONNRESET" rfl⟩

/-- C10: the download appends to the fixed path `./artifact.tar.gz` without
truncating: with a pre-existing file there, the artifact ends up holding the
old bytes followed by the response body, and the digest handed to the
source-descriptor stamping is computed over that concatenation — not over
the downloaded archive alone. -/
theorem claim_C10_append (net : String → HttpResult) (digest : List Char → List Char)
    (fs : FS) (proj vdir osr ver : String) (status : Nat) (chunks : List (List Char))
    (pre t : List Char)
    (hnet : net (downloadUrl osr ver) = HttpResult.response status chunks)
    (hart : fs.read artifactPath = some (FileData.text pre))
    (htmpl : fs.read (pjoin (pjoin proj ".bcr") "source.template.json") = some (FileData.text t)) :
    ∃ fs', writeSourceFile net digest fs proj vdir osr ver = Except.ok fs' ∧
      fs'.read artifactPath = some (FileData.text (pre ++ chunks.flatten)) ∧
      fs'.read (pjoin vdir "source.json")
        = some (FileData.text (stampSource t osr.toList ver.toList
            (digest (pre ++ chunks.flatten)))) ∧
      (pre ≠ [] → pre ++ chunks.flatten ≠ chunks.flatten) := by
  have hdl : download net fs (downloadUrl osr ver) artifactPath
      = Except.ok (appendChunks fs artifactPath chunks) := by
    simp [download, hnet, appendChunks]
  have hart1 : (appendChunks fs artifactPath chunks).read artifactPath
      = some (FileData.text (pre ++ chunks.flatten)) :=
    appendChunks_read_self artifactPath chunks fs pre hart
  have htmpl1 : (appendChunks fs artifactPath chunks).read
      (pjoin (pjoin proj ".bcr") "source.template.json") = some (FileData.text t) := by
    rw [appendChunks_read_ne artifactPath _ chunks (source_template_ne_artifact proj)]
    exact htmpl
  refine ⟨(appendChunks fs artifactPath chunks).write (pjoin vdir "source.json")
      (FileData.text (stampSource t osr.toList ver.toList (digest (pre ++ chunks.flatten)))),
    ?_, ?_, ?_, ?_⟩
  · unfold writeSourceFile
    rw [hdl, except_ok_bind, hart1, htmpl1]
    rfl
  · rw [FS.read_write_ne _ _ _ _ (Ne.symm (source_json_ne_artifact vdir))]
    exact hart1
  · exact FS.read_write_self _ _ _
  · intro hpre heq
    apply hpre
    have hl := congrArg List.length heq
    simp only [List.length_append] at hl
    have : pre.length = 0 := by omega
    exact List.eq_nil_of_length_eq_zero this

/-- Witness for C10: with a stale 5-byte artifact already present, the
digest input is the stale bytes followed by the fresh body. -/
theorem claim_C10_append_witness :
    ∃ fs', writeSourceFile scnNet scnDigest c10FS "proj" "vd" "acme/widget" "2.0.0"
        = Except.ok fs' ∧
      fs'.read artifactPath = some (FileData.text ("STALE".toList ++ [("TAR".toList)].flatten)) ∧
      fs'.read (pjoin "vd" "source.json")
        = some (FileData.text (stampSource scnSourceTemplate "acme/widget".toList "2.0.0".toList
            (scnDigest ("STALE".toList ++ [("TAR".toList)].flatten)))) ∧
      ("STALE".toList ≠ [] → "STALE".toList ++ [("TAR".toList)].flatten ≠ [("TAR".toList)].flatten) :=
  claim_C10_append scnNet scnDigest c10FS "proj" "vd" "acme/widget" "2.0.0" 200
    ["TAR".toList] "STALE".toList scnSourceTemplate rfl (by decide) (by decide)

/-- C8: for every owner/repo identifier and version, the fetcher requests
`https://github.com/<owner/repo>/archive/v<version>.tar.gz`, writes the
response body to the artifact file, and the digest stamped into
`source.json` is the digest function applied to exactly that file's full
content. -/
theorem claim_C8_writeSourceFile :
    (∀ osr ver : String, downloadUrl osr ver
      = "https://github.com/" ++ osr ++ "/archive/v" ++ ver ++ ".tar.gz") ∧
    (∀ (net : String → HttpResult) (digest : List Char → List Char) (fs : FS)
        (proj vdir osr ver : String) (status : Nat) (chunks : List (List Char))
        (t : List Char),
      net (downloadUrl osr ver) = HttpResult.response status chunks →
      chunks ≠ [] →
      fs.read artifactPath = none →
      fs.read (pjoin (pjoin proj ".bcr") "source.template.json") = some (FileData.text t) →
      ∃ fs', writeSourceFile net digest fs proj vdir osr ver = Except.ok fs' ∧
        fs'.read artifactPath = some (FileData.text chunks.flatten) ∧
        fs'.read (pjoin vdir "source.json")
          = some (FileData.text (stampSource t osr.toList ver.toList
              (digest chunks.flatten)))) := by
  constructor
  · intro osr ver
    rfl
  · intro net digest fs proj vdir osr ver status chunks t hnet hchunks hart htmpl
    have hdl : download net fs (downloadUrl osr ver) artifactPath
        = Except.ok (appendChunks fs artifactPath chunks) := by
      simp [download, hnet, appendChunks]
    have hart1 : (appendChunks fs artifactPath chunks).read artifactPath
        = some (FileData.text chunks.flatten) :=
      appendChunks_read_self_of_absent artifactPath chunks fs hart hchunks
    have htmpl1 : (appendChunks fs artifactPath chunks).read
        (pjoin (pjoin proj ".bcr") "source.template.json") = some (FileData.text t) := by
      rw [appendChunks_read_ne artifactPath _ chunks (source_template_ne_artifact proj)]
      exact htmpl
    refine ⟨(appendChunks fs artifactPath chunks).write (pjoin vdir "source.json")
        (FileData.text (stampSource t osr.toList ver.toList (digest chunks.flatten))),
      ?_, ?_, ?_⟩
    · unfold writeSourceFile
      rw [hdl, except_ok_bind, hart1, htmpl1]
      rfl
    · rw [FS.read_write_ne _ _ _ _ (Ne.symm (source_json_ne_artifact vdir))]
      exact hart1
    · exact FS.read_write_self _ _ _

/-- Witness for C8: a fresh run against the concrete scenario network. -/
theorem claim_C8_writeSourceFile_witness :
    downloadUrl "acme/widget" "2.0.0"
      = "https://github.com/" ++ "acme/widget" ++ "/archive/v" ++ "2.0.0" ++ ".tar.gz" ∧
    ∃ fs', writeSourceFile scnNet scnDigest c8FS "proj" "vd" "acme/widget" "2.0.0"
        = Except.ok fs' ∧
      fs'.read artifactPath = some (FileData.text ([("TAR".toList)].flatten)) ∧
      fs'.read (pjoin "vd" "source.json")
        = some (FileData.text (stampSource scnSourceTemplate "acme/widget".toList "2.0.0".toList
            (scnDigest ([("TAR".toList)].flatten)))) :=
  ⟨claim_C8_writeSourceFile.1 "acme/widget" "2.0.0",
   claim_C8_writeSourceFile.2 scnNet scnDigest c8FS "proj" "vd" "acme/widget" "2.0.0" 200
     ["TAR".toList] scnSourceTemplate rfl (by decide) (by decide) (by decide)⟩

/-- C1 counterexample: running the workflow twice with the same module and
version does fail with a FileSystemError on the second run (the version
directory exists), but the shared `metadata.json` is *not* left unchanged:
`writeMetadataFile` runs before `mkdirSync`, so the second run appends the
version again and persists `["1.0.0", "1.0.0"]` before the failure. -/
theorem claim_C1_counterexample :
    scnRun1 = Except.ok scnFS1 ∧
    scnRun2 = Except.error (WError.fsError ("EEXIST: " ++ scnVersionDir), scnFS2) ∧
    scnFS1.read scnMetadataPath = some (FileData.metaJson ["1.0.0"]) ∧
    scnFS2.read scnMetadataPath = some (FileData.metaJson ["1.0.0", "1.0.0"]) ∧
    scnFS2.read scnMetadataPath ≠ scnFS1.read scnMetadataPath := by
  refine ⟨by decide, by decide, by decide, by decide, by decide⟩

/-- C1 amended: the second invocation fails with a FileSystemError at the
version-directory creation, and the only write it performs is the metadata
rewrite preceding that failure: the resulting tree is exactly the first
run's tree with `metadata.json` overwritten to carry the version twice; the
version directory's own files, the artifact file and the directory set are
untouched. -/
theorem claim_C1_secondRun :
    scnRun2 = Except.error (WError.fsError ("EEXIST: " ++ scnVersionDir), scnFS2) ∧
    scnFS2 = scnFS1.write scnMetadataPath (FileData.metaJson ["1.0.0", "1.0.0"]) ∧
    scnFS2.read (pjoin scnVersionDir "MODULE.bazel")
      = scnFS1.read (pjoin scnVersionDir "MODULE.bazel") ∧
    scnFS2.read (pjoin scnVersionDir "source.json")
      = scnFS1.read (pjoin scnVersionDir "source.json") ∧
    scnFS2.read (pjoin scnVersionDir "presubmit.yml")
      = scnFS1.read (pjoin scnVersionDir "presubmit.yml") ∧
    scnFS2.read artifactPath = scnFS1.read artifactPath ∧
    scnFS2.dirs = scnFS1.dirs := by
  refine ⟨by decide, by decide, by decide, by decide, by decide, by decide, by decide⟩

end BcrEntry
